import Mathlib

/-!
Verification of the raspe harvest engine core.

Shallow embedding of the repository's core logic:
* `Raspe.expand` — the boolean query expander (`src/raspe/utils.py: expand`),
  with its recursive-descent parser `pOr`/`pAnd`/`pPrimary`.  The Python
  parser walks a fixed token list via a mutable index `i`; here the suffix
  `tokens[i:]` is passed as the list argument, which is the standard pure
  rendering of that loop.
* `Raspe.remove_duplicates` — the duplicate-key aggregator
  (`src/raspe/utils.py: remove_duplicates`), with pandas semantics made
  explicit (NaN keys compare equal in `duplicated`, `groupby` drops NaN
  keys and sorts group keys, `first` takes the first non-null value —
  other columns are modelled as non-null strings).
* `Raspe.requestWithRetry`, `Raspe.getNPags`, `Raspe.setPaginas`,
  `Raspe.fetchLoop`/`Raspe.downloadData`, `Raspe.raspar` — the
  retry/pagination/fan-out controller of `src/raspe/base_scraper.py`.
-/

namespace Raspe

/-! ### Sorted, duplicate-free lists of strings

Python `sorted(list(set(xs)))` returns the ascending enumeration of the
distinct elements (string comparison is code-point lexicographic, which is
what Mathlib's `LinearOrder String` implements).  `List.dedup` keeps the
distinct elements and `List.insertionSort` sorts them, producing the same
canonical list. -/

def sortStrings (l : List String) : List String := l.insertionSort (· ≤ ·)

def sortedDedup (l : List String) : List String := sortStrings l.dedup

/-! ### Python string primitives used by `expand` -/

/-- The characters matched by Python's `\s` (ASCII range). -/
def pyIsSpace (c : Char) : Bool :=
  c = ' ' || c = '\t' || c = '\n' || c = '\r' || c = '\x0b' || c = '\x0c'

/-- `re.sub(r'\s+', ' ', s)` on the character list: every maximal run of
whitespace becomes one `' '`.  `inRun` records whether the previous
character was part of a whitespace run. -/
def normWsAux : List Char → Bool → List Char
  | [], _ => []
  | c :: cs, inRun =>
    if pyIsSpace c then
      if inRun then normWsAux cs true else ' ' :: normWsAux cs true
    else c :: normWsAux cs false

def normalizeWs (s : String) : String := String.mk (normWsAux s.toList false)

/-- Is the head of the list the given character? -/
def headIs (l : List Char) (c : Char) : Bool :=
  match l with
  | c1 :: _ => c1 = c
  | [] => false

/-- `'()' in expression` — the empty-parenthesis validation check
(substring search for the two-character string `"()"`). -/
def hasEmptyParens : List Char → Bool
  | [] => false
  | c :: cs => (c = '(' && headIs cs ')') || hasEmptyParens cs

/-- `expression.count(c)` for a single character. -/
def countChar (c : Char) (l : List Char) : Nat := l.countP (· = c)

def startsWithL : List Char → List Char → Bool
  | [], _ => true
  | _ :: _, [] => false
  | p :: ps, c :: cs => p = c && startsWithL ps cs

/-- Python `str.replace(pat, rep)`: scan left to right, replacing
non-overlapping occurrences.  `skip > 0` means we are still inside a
matched occurrence whose remaining `skip` source characters are dropped
(the head character of a match is consumed when the match is emitted). -/
def replAux (pat rep : List Char) : List Char → Nat → List Char
  | [], _ => []
  | _ :: cs, skip + 1 => replAux pat rep cs skip
  | c :: cs, 0 =>
    if startsWithL pat (c :: cs) && !pat.isEmpty then
      rep ++ replAux pat rep cs (pat.length - 1)
    else c :: replAux pat rep cs 0

def pyReplace (s pat rep : String) : String :=
  String.mk (replAux pat.toList rep.toList s.toList 0)

/-- `re.sub(r'([()])', r' \1 ', s)`: insert spaces around parentheses. -/
def spaceParens (l : List Char) : List Char :=
  l.flatMap (fun c => if c = '(' || c = ')' then [' ', c, ' '] else [c])

/-- Python `str.split()` (no argument): split on whitespace runs and drop
empty pieces.  `acc` holds the current word, reversed. -/
def splitWsAux : List Char → List Char → List String
  | [], acc => if acc.isEmpty then [] else [String.mk acc.reverse]
  | c :: cs, acc =>
    if pyIsSpace c then
      if acc.isEmpty then splitWsAux cs []
      else String.mk acc.reverse :: splitWsAux cs []
    else splitWsAux cs (c :: acc)

def pySplitWs (s : String) : List String := splitWsAux s.toList []

/-- `tokenize` from `expand`: space out parentheses, then split. -/
def tokenize (s : String) : List String := pySplitWs (String.mk (spaceParens s.toList))

/-- Python `str.strip()`: drop whitespace from both ends. -/
def pyStrip (s : String) : String :=
  String.mk (((s.toList.dropWhile (pyIsSpace ·)).reverse.dropWhile (pyIsSpace ·)).reverse)

/-! ### The recursive-descent parser of `expand`

`parse_or` / `parse_and` / `parse_primary` from the Python source.  The
Python code closes over the fixed token list and a mutable index `i`; the
pure rendering below passes the unread suffix `tokens[i:]` instead, and
each function returns the parsed term list together with the remaining
suffix.  The `while` loops become the `...Loop` functions.  Each result
carries the (obvious) fact that the remaining suffix is no longer than the
input, which justifies termination. -/

/-- One Cartesian-product step of `parse_and`: `f"{l} {r}"` for every pair,
left order outer. -/
def prodJoin (left right : List String) : List String :=
  left.flatMap (fun l => right.map (fun r => l ++ " " ++ r))

mutual

/-- `parse_or`: an AND-chain, then the `while tokens[i] == "OR"` loop. -/
def pOr (ts : List String) :
    { p : List String × List String // p.2.length ≤ ts.length } :=
  match pAnd ts with
  | ⟨(left, ts1), h1⟩ =>
    match pOrLoop left ts1 with
    | ⟨(res, ts2), h2⟩ => ⟨(res, ts2), le_trans h2 h1⟩
termination_by 5 * ts.length + 4
decreasing_by all_goals first
  | omega
  | (dsimp only at *; omega)
  | (simp only [List.length_cons] at *; omega)
  | (dsimp only at *; simp only [List.length_cons] at *; omega)

/-- The `while tokens[i] == "OR"` loop of `parse_or`; OR concatenates. -/
def pOrLoop (left : List String) (ts : List String) :
    { p : List String × List String // p.2.length ≤ ts.length } :=
  match ts with
  | [] => ⟨(left, []), le_refl _⟩
  | t :: rest =>
    if t = "OR" then
      match pAnd rest with
      | ⟨(right, ts1), h1⟩ =>
        match pOrLoop (left ++ right) ts1 with
        | ⟨(res, ts2), h2⟩ =>
          ⟨(res, ts2), by dsimp only at h1 h2 ⊢; simp only [List.length_cons]; omega⟩
    else ⟨(left, t :: rest), le_refl _⟩
termination_by 5 * ts.length + 3
decreasing_by all_goals first
  | omega
  | (dsimp only at *; omega)
  | (simp only [List.length_cons] at *; omega)
  | (dsimp only at *; simp only [List.length_cons] at *; omega)

/-- `parse_and`: a primary, then the `while tokens[i] == "AND"` loop. -/
def pAnd (ts : List String) :
    { p : List String × List String // p.2.length ≤ ts.length } :=
  match pPrimary ts with
  | ⟨(left, ts1), h1⟩ =>
    match pAndLoop left ts1 with
    | ⟨(res, ts2), h2⟩ => ⟨(res, ts2), le_trans h2 h1⟩
termination_by 5 * ts.length + 2
decreasing_by all_goals first
  | omega
  | (dsimp only at *; omega)
  | (simp only [List.length_cons] at *; omega)
  | (dsimp only at *; simp only [List.length_cons] at *; omega)

/-- The `while tokens[i] == "AND"` loop of `parse_and`; AND is the
Cartesian product `prodJoin`. -/
def pAndLoop (left : List String) (ts : List String) :
    { p : List String × List String // p.2.length ≤ ts.length } :=
  match ts with
  | [] => ⟨(left, []), le_refl _⟩
  | t :: rest =>
    if t = "AND" then
      match pPrimary rest with
      | ⟨(right, ts1), h1⟩ =>
        match pAndLoop (prodJoin left right) ts1 with
        | ⟨(res, ts2), h2⟩ =>
          ⟨(res, ts2), by dsimp only at h1 h2 ⊢; simp only [List.length_cons]; omega⟩
    else ⟨(left, t :: rest), le_refl _⟩
termination_by 5 * ts.length + 1
decreasing_by all_goals first
  | omega
  | (dsimp only at *; omega)
  | (simp only [List.length_cons] at *; omega)
  | (dsimp only at *; simp only [List.length_cons] at *; omega)

/-- `parse_primary`: past-the-end gives `[]`; `"("` parses a
parenthesised OR-expression and consumes a closing `")"` if one is
present; any other token (operators and `")"` included) is a term. -/
def pPrimary (ts : List String) :
    { p : List String × List String // p.2.length ≤ ts.length } :=
  match ts with
  | [] => ⟨([], []), le_refl _⟩
  | t :: rest =>
    if t = "(" then
      match pOr rest with
      | ⟨(res, ts1), h1⟩ =>
        match ts1, h1 with
        | [], _ => ⟨(res, []), by simp⟩
        | t1 :: ts2, h1 =>
          if t1 = ")" then
            ⟨(res, ts2), by simp only [List.length_cons] at h1 ⊢; omega⟩
          else
            ⟨(res, t1 :: ts2), by simp only [List.length_cons] at h1 ⊢; omega⟩
    else ⟨([t], rest), by simp⟩
termination_by 5 * ts.length
decreasing_by all_goals first
  | omega
  | (dsimp only at *; omega)
  | (simp only [List.length_cons] at *; omega)
  | (dsimp only at *; simp only [List.length_cons] at *; omega)

end

/-- `parse_expression(tokens)`: run `parse_or` from the start. -/
def parseExpression (tokens : List String) : List String := (pOr tokens).val.1

/-- The post-parse step of `expand`: `sorted(list(set(result)))`. -/
def expandTokens (tokens : List String) : List String :=
  sortedDedup (parseExpression tokens)

/-- `expand(expression)` from `src/raspe/utils.py`.  `ValueError` raises
become `Except.error` with the source's messages. -/
def expand (s : String) : Except String (List String) :=
  let expression := normalizeWs s
  if hasEmptyParens expression.toList then
    .error "Parênteses vazios não permitidos"
  else if countChar '(' expression.toList ≠ countChar ')' expression.toList then
    .error "Parênteses desequilibrados na expressão"
  else
    let expr := pyReplace (pyReplace expression " E " " AND ") " OU " " OR "
    .ok (expandTokens (tokenize expr))



inductive Expr where
  | term (w : String)
  | and (a b : Expr)
  | or (a b : Expr)

def Expr.eval : Expr → List String
  | .term w => [w]
  | .and a b => prodJoin a.eval b.eval
  | .or a b => a.eval ++ b.eval

def Expr.render : Expr → List String
  | .term w => [w]
  | .and a b => "(" :: (a.render ++ "AND" :: (b.render ++ [")"]))
  | .or a b => "(" :: (a.render ++ "OR" :: (b.render ++ [")"]))

def Expr.good : Expr → Prop
  | .term w => w ≠ "("
  | .and a b => a.good ∧ b.good
  | .or a b => a.good ∧ b.good

def Expr.goodDec : (e : Expr) → Decidable e.good
  | .term w => inferInstanceAs (Decidable (w ≠ "("))
  | .and a b => @instDecidableAnd _ _ (goodDec a) (goodDec b)
  | .or a b => @instDecidableAnd _ _ (goodDec a) (goodDec b)

instance : DecidablePred Expr.good := Expr.goodDec

/-! ### Data model of the base-scraper controller (`base_scraper.py`) -/

/-- An HTTP response as the controller sees it (`requests.Response`):
`retryAfterHeader` is `r.headers.get('Retry-After')`; `jsonDump` is
`json.dumps(r.json(), ensure_ascii=False)` when `r.json()` succeeds and
`none` when it raises. -/
structure Resp where
  status : Nat
  retryAfterHeader : Option String
  text : String
  jsonDump : Option String
deriving DecidableEq

/-- The outcome of one `_set_r` call: a response, or a raised exception
(connection errors, timeouts, ...). -/
inductive FetchResult where
  | resp (r : Resp)
  | exception (msg : String)
deriving DecidableEq

/-- The Python exceptions the modelled code can raise
(`raspe.exceptions` plus the builtins it uses). -/
inductive PyErr where
  | valueError (msg : String)
  | validationError (msg : String)
  | rateLimitError (retryAfter : Option Int)
  | apiError (status : Nat) (text : String)
  | attributeError (msg : String)
  | exception (msg : String)
  | unboundLocal
deriving DecidableEq

/-- A Python `range(start, stop, step)` object. -/
structure PyRange where
  start : Int
  stop : Int
  step : Int
deriving DecidableEq

/-- The number of elements of a Python range: `max(0, ceil((stop-start)/step))`
for a positive step, symmetrically for a negative one (`step = 0` cannot
be constructed in Python). -/
def PyRange.size (r : PyRange) : Nat :=
  if 0 < r.step then (r.stop - r.start + r.step - 1).toNat / r.step.toNat
  else if r.step < 0 then (r.start - r.stop + (-r.step) - 1).toNat / (-r.step).toNat
  else 0

def PyRange.toList (r : PyRange) : List Int :=
  (List.range r.size).map (fun i => r.start + r.step * i)

/-- A Python value as passed in the `**kwargs` of `raspar`. -/
inductive PyVal where
  | pynone
  | str (s : String)
  | int (n : Int)
  | vlist (vs : List PyVal)
  | vtuple (vs : List PyVal)
  | vrange (r : PyRange)

/-- Python `str(v)` for the modelled values (only scalar forms matter to
the claims; container reprs are abstracted). -/
def pyStr : PyVal → String
  | .pynone => "None"
  | .str s => s
  | .int n => toString n
  | .vlist _ => "[...]"
  | .vtuple _ => "(...)"
  | .vrange _ => "range(...)"

/-- The ordered `**kwargs` mapping of a `raspar` call. -/
abbrev Kwargs := List (String × PyVal)

/-- `isinstance(v, (list, tuple))`. -/
def isListLike : PyVal → Bool
  | .vlist _ => true
  | .vtuple _ => true
  | _ => false

/-- `[k for k, v in kwargs.items() if isinstance(v, (list, tuple)) and k != "paginas"]` -/
def listKeys (kwargs : Kwargs) : List String :=
  (kwargs.filter (fun kv => isListLike kv.2 && kv.1 ≠ "paginas")).map (fun kv => kv.1)

/-- `kwargs[k]` (`pynone` when absent; kwargs keys are unique). -/
def lookupKw (kwargs : Kwargs) (k : String) : PyVal :=
  ((kwargs.find? (fun kv => kv.1 = k)).map (fun kv => kv.2)).getD .pynone

/-- The values of a list- or tuple-valued parameter. -/
def valsOf : PyVal → List PyVal
  | .vlist vs => vs
  | .vtuple vs => vs
  | _ => []

/-! ### `_request_with_retry` -/

/-- Python slicing `s[:n]` (by characters, as Python slices strings). -/
def pyTake (n : Nat) (s : String) : String := String.mk (s.toList.take n)

/-- The value of one decimal digit character. -/
def digitVal (c : Char) : Option Nat :=
  if '0' ≤ c ∧ c ≤ '9' then some (c.toNat - Char.toNat '0') else none

/-- A non-empty run of decimal digits, most significant first. -/
def digitsToNat : List Char → Nat → Option Nat
  | [], acc => some acc
  | c :: cs, acc =>
    match digitVal c with
    | some d => digitsToNat cs (acc * 10 + d)
    | none => none

/-- Python `int(s)` on a header value: strip surrounding whitespace, an
optional sign, then decimal digits (digit-group underscores are not
modelled). -/
def pyInt? (s : String) : Option Int :=
  match (pyStrip s).toList with
  | [] => none
  | '+' :: cs => if cs.isEmpty then none else (digitsToNat cs 0).map Int.ofNat
  | '-' :: cs =>
    if cs.isEmpty then none else (digitsToNat cs 0).map (fun v => -(Int.ofNat v))
  | cs => (digitsToNat cs 0).map Int.ofNat

/-- The wait before retrying a 429: the parsed `Retry-After` header when
present, non-empty and parseable, else `2 ** attempt`. -/
def wait429 (attempt : Nat) (ra : Option String) : Int :=
  match ra with
  | some s => if s ≠ "" then (pyInt? s).getD (2 ^ attempt) else 2 ^ attempt
  | none => 2 ^ attempt

/-- The terminal outcome of a 429 once attempts are exhausted:
`RateLimitError(..., retry_after=int(retry_after) if retry_after else None)`.
The `int(...)` itself raises `ValueError` on an unparseable header. -/
def terminal429 (ra : Option String) : Except PyErr Resp :=
  match ra with
  | some s =>
    if s ≠ "" then
      match pyInt? s with
      | some n => .error (.rateLimitError (some n))
      | none => .error (.valueError "invalid literal for int()")
    else .error (.rateLimitError none)
  | none => .error (.rateLimitError none)

/-- The `for attempt in range(retries)` loop of `_request_with_retry`.
`fetch a` is the outcome of `_set_r(query)` at attempt `a`; `rem` is the
number of iterations left (`retries - attempt`), making the recursion
structural; the returned list records the `time.sleep` durations.  A
raised exception from `_set_r` propagates.  Falling off the loop
(`rem = 0`, possible only when `retries = 0`) reaches `return r` with `r`
unbound — an `UnboundLocalError`. -/
def rwrGo (fetch : Nat → FetchResult) (retries : Nat) :
    Nat → Nat → List Int → Except PyErr Resp × List Int
  | 0, _, sleeps => (.error .unboundLocal, sleeps)
  | rem + 1, attempt, sleeps =>
    match fetch attempt with
    | .exception m => (.error (.exception m), sleeps)
    | .resp r =>
      if r.status < 400 ∨ (400 ≤ r.status ∧ r.status < 500 ∧ r.status ≠ 429) then
        (.ok r, sleeps)
      else if r.status = 429 then
        if attempt < retries - 1 then
          rwrGo fetch retries rem (attempt + 1)
            (sleeps ++ [wait429 attempt r.retryAfterHeader])
        else (terminal429 r.retryAfterHeader, sleeps)
      else if 500 ≤ r.status then
        if attempt < retries - 1 then
          rwrGo fetch retries rem (attempt + 1) (sleeps ++ [(2 : Int) ^ attempt])
        else (.error (.apiError r.status (pyTake 500 r.text)), sleeps)
      else
        rwrGo fetch retries rem (attempt + 1) sleeps

/-- `_request_with_retry(query, max_retries)`: the response or terminal
error, together with the backoff sleeps performed. -/
def requestWithRetry (fetch : Nat → FetchResult) (retries : Nat) :
    Except PyErr Resp × List Int :=
  rwrGo fetch retries retries 0 []

/-! ### `_get_n_pags`, `_set_paginas`, `_download_data` -/

/-- `_get_n_pags(query_inicial)`: probe once through the retrying request.
`RateLimitError` and `APIError` are caught and degrade to `0`; every
other exception propagates (transport errors raised inside `_set_r`, the
`ValueError` of the terminal `int(...)`, anything `_find_n_pags` raises).
A `None` count from `_find_n_pags` becomes `0`. -/
def getNPags (fetch : Nat → FetchResult) (maxRetries : Nat)
    (findNPags : Resp → Except PyErr (Option Int)) : Except PyErr Int :=
  match (requestWithRetry fetch maxRetries).1 with
  | .error (.rateLimitError _) => .ok 0
  | .error (.apiError _ _) => .ok 0
  | .error e => .error e
  | .ok r0 =>
    match findNPags r0 with
    | .error e => .error e
    | .ok none => .ok 0
    | .ok (some n) => .ok n

/-- `_set_paginas(paginas, n_pags)`: a `None` page count counts as 0; no
requested range means `range(1, n_pags + 1)`; a requested `range` keeps
its start and step and clamps its stop to `min(stop, n_pags + 1)`; any
other value hits `paginas.start` and raises `AttributeError`. -/
def setPaginas (paginas : PyVal) (nPags : Option Int) : Except PyErr PyRange :=
  let n := nPags.getD 0
  match paginas with
  | .pynone => .ok ⟨1, n + 1, 1⟩
  | .vrange p => .ok ⟨p.start, min p.stop (n + 1), p.step⟩
  | _ => .error (.attributeError "object has no attribute start")

/-- Writing one fetched page in `_download_data`:
`content = r.text if r.text and r.text.strip() else json.dumps(r.json(), ...)`;
`none` means `r.json()` raised, which the surrounding `except` turns into
a skipped page. -/
def writeContent (r : Resp) : Option String :=
  if r.text ≠ "" ∧ pyStrip r.text ≠ "" then some r.text else r.jsonDump

/-- The page loop of `_download_data`: one plain `_set_r` fetch per page —
no retry.  A raised exception is caught, logged, and the page skipped; a
5xx response is logged and the page skipped; any other response,
including a 429, is persisted.  Returns the (page, content) pairs written
to the session store. -/
def fetchLoop (pages : List Int) (fetch : Int → FetchResult) : List (Int × String) :=
  match pages with
  | [] => []
  | pag :: rest =>
    match fetch pag with
    | .exception _ => fetchLoop rest fetch
    | .resp r =>
      if 500 ≤ r.status then fetchLoop rest fetch
      else
        match writeContent r with
        | some content => (pag, content) :: fetchLoop rest fetch
        | none => fetchLoop rest fetch

/-- `_download_data` after the query has been built and the page count
probed: compute the effective range, run the fetch loop, and return the
session's download directory with the written pages.  (The
`hasattr(paginas, '__iter__')` fallback after `_set_paginas` cannot fire
— `_set_paginas` always returns a `range` when it returns — while an
`AttributeError` raised inside `_set_paginas` propagates out.) -/
def downloadData (downloadDir : String) (paginas : PyVal) (nPags : Option Int)
    (fetch : Int → FetchResult) : Except PyErr (String × List (Int × String)) :=
  match setPaginas paginas nPags with
  | .error e => .error e
  | .ok pr => .ok (downloadDir, fetchLoop pr.toList fetch)

/-! ### `raspar` -/

/-- `raspar(**kwargs)`.  `validar` stands for the overridable
`_validar_parametros` and `downloadParse` for the composition
`_parse_data(_download_data(**kw))` returning the parsed rows of one
harvest; each output row is paired with its `termo_busca` provenance
value (`none` when the column is never assigned). -/
def raspar (validar : Kwargs → Except PyErr Kwargs)
    (downloadParse : Kwargs → List String) (kwargs : Kwargs) :
    Except PyErr (List (String × Option String)) :=
  match validar kwargs with
  | .error e => .error e
  | .ok kw =>
    let lks := listKeys kw
    if lks ≠ [] then
      if lks.length > 1 then
        .error (.valueError "raspar() só suporta lista de valores de busca para um parâmetro")
      else
        let key := lks.headD ""
        let staticKw := kw.filter (fun kv => kv.1 ≠ key)
        .ok ((valsOf (lookupKw kw key)).flatMap (fun v =>
          (downloadParse (staticKw ++ [(key, v)])).map (fun row => (row, some (pyStr v)))))
    else
      let rows := downloadParse kw
      match (kw.map (fun kv => kv.1)).find? (fun k =>
          ["pesquisa", "termo", "q", "query"].contains k) with
      | some k => .ok (rows.map (fun row => (row, some (pyStr (lookupKw kw k)))))
      | none => .ok (rows.map (fun row => (row, none)))

/-- Does a result carry a `ValidationError`?  (Used to state that
`raspar` raises `ValueError`, not `ValidationError`.) -/
def isValidationError {α : Type} : Except PyErr α → Bool
  | .error (.validationError _) => true
  | _ => false

/-! ### `remove_duplicates` -/

/-- A row of the scraped table as `remove_duplicates` sees it: the
canonical key column `link` (`none` = missing/NaN), the provenance column
`termo_busca`, and one representative further column `extra`.  Further
columns are modelled as non-null strings, so the pandas `first`
aggregation (first non-null) is simply the first row's value. -/
structure Row where
  link : Option String
  termoBusca : String
  extra : String
deriving DecidableEq

/-- `df.duplicated(subset='link', keep=False)` for one row: its key occurs
at least twice in the table.  pandas treats NaN keys as equal to each
other here, which `Option` equality mirrors. -/
def isDupRow (rows : List Row) (r : Row) : Bool :=
  2 ≤ rows.countP (fun r2 => r2.link == r.link)

/-- The keys of `duplicatas.groupby('link')`: `groupby` sorts the group
keys and drops NaN keys (`dropna=True` default). -/
def groupKeys (dups : List Row) : List String :=
  sortedDedup (dups.filterMap (fun r => r.link))

/-- One aggregated group, per `agg_dict`: `termo_busca` is
`', '.join` over the group in row order, every other column takes the
group's first value. -/
def mergeGroup (k : String) (dups : List Row) : Row :=
  let group := dups.filter (fun r => r.link == some k)
  { link := some k
    termoBusca := ", ".intercalate (group.map (fun r => r.termoBusca))
    extra := ((group.head?).map (fun r => r.extra)).getD "" }

/-- `remove_duplicates(df)` from `src/raspe/utils.py`: split off the rows
whose key is duplicated, aggregate those per key, keep the rest
(`drop_duplicates(subset='link', keep=False)`), and concatenate. -/
def remove_duplicates (rows : List Row) : List Row :=
  let duplicatas := rows.filter (fun r => isDupRow rows r)
  let agrupadas := (groupKeys duplicatas).map (fun k => mergeGroup k duplicatas)
  (rows.filter (fun r => !isDupRow rows r)) ++ agrupadas

/-! ## Theorems -/


theorem sortStrings_perm (l : List String) : List.Perm (sortStrings l) l :=
  List.perm_insertionSort _ l

theorem sortStrings_sorted (l : List String) : (sortStrings l).Sorted (· ≤ ·) :=
  List.sorted_insertionSort _ l

theorem sortedDedup_eq_of_mem_iff {l₁ l₂ : List String}
    (h : ∀ a, a ∈ l₁ ↔ a ∈ l₂) : sortedDedup l₁ = sortedDedup l₂ := by
  apply List.eq_of_perm_of_sorted ?_ (sortStrings_sorted _) (sortStrings_sorted _)
  refine (sortStrings_perm _).trans (List.Perm.trans ?_ (sortStrings_perm _).symm)
  apply List.perm_iff_count.mpr
  intro a
  by_cases hm : a ∈ l₁
  · rw [List.count_eq_one_of_mem (List.nodup_dedup _) (List.mem_dedup.mpr hm),
      List.count_eq_one_of_mem (List.nodup_dedup _) (List.mem_dedup.mpr ((h a).mp hm))]
  · rw [List.count_eq_zero.mpr (fun hc => hm (List.mem_dedup.mp hc)),
      List.count_eq_zero.mpr (fun hc => hm ((h a).mpr (List.mem_dedup.mp hc)))]

theorem pOr_val (ts : List String) :
    (pOr ts).val = (pOrLoop (pAnd ts).val.1 (pAnd ts).val.2).val := by
  rw [pOr]

theorem pAnd_val (ts : List String) :
    (pAnd ts).val = (pAndLoop (pPrimary ts).val.1 (pPrimary ts).val.2).val := by
  rw [pAnd]

theorem pOrLoop_nil (left : List String) : (pOrLoop left []).val = (left, []) := by
  rw [pOrLoop]

theorem pOrLoop_stop (left : List String) {t : String} (rest : List String)
    (h : t ≠ "OR") : (pOrLoop left (t :: rest)).val = (left, t :: rest) := by
  rw [pOrLoop]
  simp [h]

theorem pOrLoop_or (left rest : List String) :
    (pOrLoop left ("OR" :: rest)).val =
      (pOrLoop (left ++ (pAnd rest).val.1) (pAnd rest).val.2).val := by
  rw [pOrLoop]
  simp

theorem pAndLoop_nil (left : List String) : (pAndLoop left []).val = (left, []) := by
  rw [pAndLoop]

theorem pAndLoop_stop (left : List String) {t : String} (rest : List String)
    (h : t ≠ "AND") : (pAndLoop left (t :: rest)).val = (left, t :: rest) := by
  rw [pAndLoop]
  simp [h]

theorem pAndLoop_and (left rest : List String) :
    (pAndLoop left ("AND" :: rest)).val =
      (pAndLoop (prodJoin left (pPrimary rest).val.1) (pPrimary rest).val.2).val := by
  rw [pAndLoop]
  simp

theorem pPrimary_nil : (pPrimary ([] : List String)).val = ([], []) := by
  rw [pPrimary]

theorem pPrimary_term {t : String} (rest : List String) (h : t ≠ "(") :
    (pPrimary (t :: rest)).val = ([t], rest) := by
  rw [pPrimary]
  simp [h]

theorem pPrimary_paren_close {rest res ts2 : List String}
    (h : (pOr rest).val = (res, ")" :: ts2)) :
    (pPrimary ("(" :: rest)).val = (res, ts2) := by
  rw [pPrimary]
  simp only [if_pos rfl]
  rcases hOr : pOr rest with ⟨⟨r, ts1⟩, hb⟩
  rw [hOr] at h
  simp at h
  obtain ⟨h1, h2⟩ := h
  subst h1 h2
  simp

/-- Parser correctness on rendered expressions: `parse_primary` consumes
exactly the rendering of a well-formed expression and returns its
evaluation, whatever follows. -/
theorem pPrimary_render (e : Expr) (he : e.good) (rest : List String) :
    (pPrimary (e.render ++ rest)).val = (e.eval, rest) := by
  induction e generalizing rest with
  | term w =>
    exact pPrimary_term rest he
  | and a b iha ihb =>
    obtain ⟨ha, hb⟩ := he
    have hrw : Expr.render (.and a b) ++ rest =
        "(" :: (a.render ++ "AND" :: (b.render ++ (")" :: rest))) := by
      simp [Expr.render]
    rw [hrw]
    apply pPrimary_paren_close
    rw [pOr_val, pAnd_val, iha ha]
    simp only
    rw [pAndLoop_and, ihb hb]
    simp only
    rw [pAndLoop_stop _ _ (by decide), pOrLoop_stop _ _ (by decide)]
    simp [Expr.eval]
  | or a b iha ihb =>
    obtain ⟨ha, hb⟩ := he
    have hrw : Expr.render (.or a b) ++ rest =
        "(" :: (a.render ++ "OR" :: (b.render ++ (")" :: rest))) := by
      simp [Expr.render]
    rw [hrw]
    apply pPrimary_paren_close
    rw [pOr_val, pAnd_val, iha ha]
    simp only
    rw [pAndLoop_stop _ _ (by decide)]
    simp only
    rw [pOrLoop_or, pAnd_val, ihb hb]
    simp only
    rw [pAndLoop_stop _ _ (by decide), pOrLoop_stop _ _ (by decide)]
    simp [Expr.eval]

/-- `parse_expression` on the rendering of a well-formed expression
computes its evaluation. -/
theorem parseExpression_render (e : Expr) (he : e.good) :
    parseExpression e.render = e.eval := by
  have h : (pPrimary (e.render ++ [])).val = (e.eval, []) := pPrimary_render e he []
  rw [List.append_nil] at h
  unfold parseExpression
  rw [pOr_val, pAnd_val, h]
  simp only
  rw [pAndLoop_nil, pOrLoop_nil]

/-- C9: for all (well-formed) subexpressions X, Y, Z, expanding
`(X AND (Y OR Z))` yields exactly the same sorted, duplicate-free term
list as expanding `((X AND Y) OR (X AND Z))`: AND distributes over OR up
to the final sort-and-dedup step of `expand`. -/
theorem C9_and_distributes_over_or (X Y Z : Expr)
    (hX : X.good) (hY : Y.good) (hZ : Z.good) :
    expandTokens (Expr.render (.and X (.or Y Z))) =
      expandTokens (Expr.render (.or (.and X Y) (.and X Z))) := by
  unfold expandTokens
  rw [parseExpression_render (.and X (.or Y Z)) (show _ ∧ _ ∧ _ from ⟨hX, hY, hZ⟩),
    parseExpression_render (.or (.and X Y) (.and X Z))
      (show (_ ∧ _) ∧ _ ∧ _ from ⟨⟨hX, hY⟩, hX, hZ⟩)]
  apply sortedDedup_eq_of_mem_iff
  intro a
  simp only [Expr.eval, prodJoin, List.mem_flatMap, List.mem_map, List.mem_append]
  constructor
  · rintro ⟨l, hl, r, hr | hr, rfl⟩
    · exact Or.inl ⟨l, hl, r, hr, rfl⟩
    · exact Or.inr ⟨l, hl, r, hr, rfl⟩
  · rintro (⟨l, hl, r, hr, rfl⟩ | ⟨l, hl, r, hr, rfl⟩)
    · exact ⟨l, hl, r, Or.inl hr, rfl⟩
    · exact ⟨l, hl, r, Or.inr hr, rfl⟩

/-- Witness for C9 at X = x, Y = y, Z = z. -/
theorem C9_and_distributes_over_or_witness :
    Expr.good (.term "x") ∧ Expr.good (.term "y") ∧ Expr.good (.term "z") ∧
    expandTokens (Expr.render (.and (.term "x") (.or (.term "y") (.term "z")))) =
      expandTokens (Expr.render (.or (.and (.term "x") (.term "y"))
        (.and (.term "x") (.term "z")))) :=
  ⟨by decide, by decide, by decide,
    C9_and_distributes_over_or _ _ _ (by decide) (by decide) (by decide)⟩

/-! ### Evaluation helpers for `expand` -/

theorem sortedDedup_singleton (w : String) : sortedDedup [w] = [w] := by
  simp [sortedDedup, sortStrings, List.insertionSort]

theorem hasEmptyParens_eq_false {l : List Char} (h : ∀ c ∈ l, c ≠ '(') :
    hasEmptyParens l = false := by
  induction l with
  | nil => rfl
  | cons c cs ih =>
    simp [hasEmptyParens, h c (by simp), ih (fun x hx => h x (by simp [hx]))]

/-- When both validation checks pass, `expand` reaches the parser and
returns `ok`. -/
theorem expand_ok (s : String)
    (h1 : hasEmptyParens (normalizeWs s).toList = false)
    (h2 : countChar '(' (normalizeWs s).toList = countChar ')' (normalizeWs s).toList) :
    expand s = .ok (expandTokens (tokenize
      (pyReplace (pyReplace (normalizeWs s) " E " " AND ") " OU " " OR "))) := by
  unfold expand
  simp only [String.toList] at h1 h2
  simp [h1, h2]

/-- A leading term token is returned alone whenever no operator follows:
everything after it is silently discarded. -/
theorem parseExpression_term_discard {t : String} (h1 : t ≠ "(") {rest : List String}
    (h2 : rest.head? ≠ some "AND") (h3 : rest.head? ≠ some "OR") :
    parseExpression (t :: rest) = [t] := by
  unfold parseExpression
  rw [pOr_val, pAnd_val, pPrimary_term rest h1]
  simp only
  rcases rest with _ | ⟨t1, rest1⟩
  · rw [pAndLoop_nil, pOrLoop_nil]
  · simp only [List.head?_cons] at h2 h3
    rw [pAndLoop_stop _ _ (fun hc => h2 (by rw [hc])),
      pOrLoop_stop _ _ (fun hc => h3 (by rw [hc]))]

theorem expand_foo_bar : expand "foo bar" = .ok ["foo"] := by
  rw [expand_ok _ (by decide) (by decide)]
  have htok : tokenize
      (pyReplace (pyReplace (normalizeWs "foo bar") " E " " AND ") " OU " " OR ") =
      ["foo", "bar"] := rfl
  rw [htok]
  unfold expandTokens
  rw [parseExpression_term_discard (by decide) (by decide) (by decide)]
  rfl

theorem expand_discards : expand "x (y OU z)" = .ok ["x"] := by
  rw [expand_ok _ (by decide) (by decide)]
  have htok : tokenize
      (pyReplace (pyReplace (normalizeWs "x (y OU z)") " E " " AND ") " OU " " OR ") =
      ["x", "(", "y", "OR", "z", ")"] := rfl
  rw [htok]
  unfold expandTokens
  rw [parseExpression_term_discard (by decide) (by decide) (by decide)]
  rfl

/-! ### Single-word expressions: the operator replacements and the
tokenizer leave one clean word alone -/

theorem replAux_skip_word (pr rep : List Char) {wl : List Char}
    (h : ∀ c ∈ wl, c ≠ ' ') (tail : List Char) :
    replAux (' ' :: pr) rep (wl ++ tail) 0 = wl ++ replAux (' ' :: pr) rep tail 0 := by
  induction wl with
  | nil => simp
  | cons c cs ih =>
    have hc : ' ' ≠ c := fun hco => (h c (by simp)) hco.symm
    have ih2 := ih (fun x hx => h x (by simp [hx]))
    rw [List.cons_append, replAux, if_neg (by simp [startsWithL, hc]), ih2]
    rfl

theorem replAux_trailing_space (pr rep : List Char) (hpr : pr ≠ []) :
    replAux (' ' :: pr) rep [' '] 0 = [' '] := by
  rcases pr with _ | ⟨p, ps⟩
  · exact absurd rfl hpr
  · rw [replAux]
    simp [startsWithL, replAux]

theorem startsWithL_append_space_false {mid wl : List Char}
    (hwl : ∀ c ∈ wl, c ≠ ' ') :
    startsWithL (mid ++ [' ']) wl = false := by
  induction mid generalizing wl with
  | nil =>
    rcases wl with _ | ⟨c, cs⟩
    · rfl
    · have hc : ' ' ≠ c := fun hco => (hwl c (by simp)) hco.symm
      simp [startsWithL, hc]
  | cons m ms ih =>
    rcases wl with _ | ⟨c, cs⟩
    · rfl
    · simp only [List.cons_append, startsWithL, List.append_eq]
      rw [ih (fun x hx => hwl x (by simp [hx]))]
      simp

theorem startsWithL_append_space_iff {mid wl : List Char}
    (hwl : ∀ c ∈ wl, c ≠ ' ') (hmid : ∀ c ∈ mid, c ≠ ' ') :
    startsWithL (mid ++ [' ']) (wl ++ [' ']) = true ↔ wl = mid := by
  induction mid generalizing wl with
  | nil =>
    rcases wl with _ | ⟨c, cs⟩
    · simp [startsWithL]
    · have hc : ' ' ≠ c := fun hco => (hwl c (by simp)) hco.symm
      simp [startsWithL, hc]
  | cons m ms ih =>
    rcases wl with _ | ⟨c, cs⟩
    · have hnil : startsWithL (ms ++ [' ']) [] = false := by cases ms <;> rfl
      simp [startsWithL, List.append_eq, hnil]
    · simp only [List.cons_append, startsWithL, List.append_eq]
      have hcs : ∀ x ∈ cs, x ≠ ' ' := fun x hx => hwl x (List.mem_cons_of_mem _ hx)
      have hms : ∀ x ∈ ms, x ≠ ' ' := fun x hx => hmid x (List.mem_cons_of_mem _ hx)
      rcases eq_or_ne m c with hmc | hmc
      · subst hmc
        simp [ih hcs hms]
      · simp [hmc, Ne.symm hmc]

/-- A pattern of the shape `" mid "` does not occur in a space-free word
padded by at most one space on each side (unless the word is `mid`), so
`str.replace` leaves the text unchanged. -/
theorem replAux_padded_word (mid rep : List Char) {wl : List Char} (spL spR : List Char)
    (hL : spL = [] ∨ spL = [' ']) (hR : spR = [] ∨ spR = [' '])
    (hwl : ∀ c ∈ wl, c ≠ ' ') (hmid : ∀ c ∈ mid, c ≠ ' ')
    (hne : wl ≠ mid) :
    replAux (' ' :: (mid ++ [' '])) rep (spL ++ (wl ++ spR)) 0 = spL ++ (wl ++ spR) := by
  have hpr : mid ++ [' '] ≠ [] := by simp
  have tailEq : replAux (' ' :: (mid ++ [' '])) rep spR 0 = spR := by
    rcases hR with rfl | rfl
    · rfl
    · exact replAux_trailing_space _ _ hpr
  have hbody : replAux (' ' :: (mid ++ [' '])) rep (wl ++ spR) 0 = wl ++ spR := by
    rw [replAux_skip_word _ _ hwl, tailEq]
  rcases hL with rfl | rfl
  · simpa using hbody
  · have hin : startsWithL (mid ++ [' ']) (wl ++ spR) = false := by
      rcases hR with rfl | rfl
      · simpa using startsWithL_append_space_false hwl
      · cases hb : startsWithL (mid ++ [' ']) (wl ++ [' ']) with
        | false => rfl
        | true => exact absurd ((startsWithL_append_space_iff hwl hmid).mp hb) hne
    show replAux (' ' :: (mid ++ [' '])) rep (' ' :: (wl ++ spR)) 0 = ' ' :: (wl ++ spR)
    rw [replAux, if_neg (by simp [startsWithL, hin]), hbody]

theorem spaceParens_id {l : List Char} (h : ∀ c ∈ l, c ≠ '(' ∧ c ≠ ')') :
    spaceParens l = l := by
  induction l with
  | nil => rfl
  | cons c cs ih =>
    obtain ⟨h1, h2⟩ := h c (by simp)
    have ih2 := ih (fun x hx => h x (by simp [hx]))
    simp only [spaceParens, List.flatMap_cons] at *
    rw [if_neg (by simp [h1, h2])]
    rw [ih2]
    rfl

theorem splitWsAux_word {wl : List Char} (hws : ∀ c ∈ wl, pyIsSpace c = false)
    (tail acc : List Char) :
    splitWsAux (wl ++ tail) acc = splitWsAux tail (wl.reverse ++ acc) := by
  induction wl generalizing acc with
  | nil => simp
  | cons c cs ih =>
    have hc := hws c (by simp)
    rw [List.cons_append, splitWsAux, if_neg (by simp [hc])]
    rw [ih (fun x hx => hws x (by simp [hx])) (c :: acc)]
    simp

theorem pySplit_single {wl : List Char} (hne : wl ≠ []) (hws : ∀ c ∈ wl, pyIsSpace c = false)
    (spL spR : List Char) (hL : spL = [] ∨ spL = [' ']) (hR : spR = [] ∨ spR = [' ']) :
    splitWsAux (spL ++ (wl ++ spR)) [] = [String.mk wl] := by
  have hrevne : ¬ (wl.reverse ++ []).isEmpty := by simp [hne]
  have hsplit : splitWsAux (wl ++ spR) [] = [String.mk wl] := by
    rw [splitWsAux_word hws spR []]
    rcases hR with rfl | rfl
    · rw [splitWsAux, if_neg hrevne]
      simp
    · rw [splitWsAux, if_pos (by rfl), if_neg hrevne]
      simp [splitWsAux]
  rcases hL with rfl | rfl
  · simpa using hsplit
  · show splitWsAux (' ' :: (wl ++ spR)) [] = [String.mk wl]
    rw [splitWsAux, if_pos (by rfl), if_pos (by rfl)]
    exact hsplit

/-- On an expression that normalizes to one clean word (padded by at most
one space per side), `expand` returns exactly that word. -/
theorem expand_single_word (s w : String)
    (hw : w ≠ "")
    (hws : ∀ c ∈ w.toList, pyIsSpace c = false)
    (hpar : ∀ c ∈ w.toList, c ≠ '(' ∧ c ≠ ')')
    (hE : w ≠ "E") (hOU : w ≠ "OU")
    (spL spR : List Char) (hL : spL = [] ∨ spL = [' ']) (hR : spR = [] ∨ spR = [' '])
    (hnorm : (normalizeWs s).toList = spL ++ (w.toList ++ spR)) :
    expand s = .ok [w] := by
  have hnsp : ∀ c ∈ w.toList, c ≠ ' ' := fun c hc heq =>
    absurd (heq ▸ hws c hc) (by decide)
  have hne : w.toList ≠ [] := fun h0 => hw (String.ext h0)
  have hallchars : ∀ c ∈ spL ++ (w.toList ++ spR), c ≠ '(' ∧ c ≠ ')' := by
    intro c hc
    rcases List.mem_append.mp hc with hc | hc
    · rcases hL with rfl | rfl
      · simp at hc
      · simp at hc
        subst hc
        exact ⟨by decide, by decide⟩
    · rcases List.mem_append.mp hc with hc | hc
      · exact hpar c hc
      · rcases hR with rfl | rfl
        · simp at hc
        · simp at hc
          subst hc
          exact ⟨by decide, by decide⟩
  have h1 : hasEmptyParens (normalizeWs s).toList = false := by
    rw [hnorm]
    exact hasEmptyParens_eq_false (fun c hc => (hallchars c hc).1)
  have h2 : countChar '(' (normalizeWs s).toList = countChar ')' (normalizeWs s).toList := by
    rw [hnorm]
    unfold countChar
    rw [List.countP_eq_zero.mpr (fun a ha => by simp [(hallchars a ha).1]),
      List.countP_eq_zero.mpr (fun a ha => by simp [(hallchars a ha).2])]
  rw [expand_ok _ h1 h2]
  have hrep1 : pyReplace (normalizeWs s) " E " " AND " =
      String.mk (spL ++ (w.toList ++ spR)) := by
    unfold pyReplace
    rw [hnorm]
    congr 1
    exact replAux_padded_word ['E'] _ spL spR hL hR hnsp (by decide)
      (fun h0 => hE (String.ext h0))
  have hrep2 : pyReplace (String.mk (spL ++ (w.toList ++ spR))) " OU " " OR " =
      String.mk (spL ++ (w.toList ++ spR)) := by
    unfold pyReplace
    congr 1
    exact replAux_padded_word ['O', 'U'] _ spL spR hL hR hnsp (by decide)
      (fun h0 => hOU (String.ext h0))
  rw [hrep1, hrep2]
  have htok : tokenize (String.mk (spL ++ (w.toList ++ spR))) = [w] := by
    unfold tokenize pySplitWs
    rw [show (String.mk (spL ++ (w.toList ++ spR))).toList =
      spL ++ (w.toList ++ spR) from rfl]
    rw [spaceParens_id hallchars]
    show splitWsAux (spL ++ (w.toList ++ spR)) [] = [w]
    rw [pySplit_single hne hws spL spR hL hR]
    rfl
  rw [htok]
  have hwp : w ≠ "(" := fun heq => (hpar '(' (by rw [heq]; decide)).1 rfl
  unfold expandTokens
  rw [parseExpression_term_discard hwp (by decide) (by decide), sortedDedup_singleton]

/-! ### Claims C8 and C10 -/

/-- C8 counterexample: the operator-free expression `"foo bar"` (two
whitespace-separated words, no parentheses) expands to `["foo"]`, not to
`["foo bar"] = [expression.strip()]` as the claim states — the second
word is dropped. -/
theorem C8_counterexample :
    expand "foo bar" = .ok ["foo"] ∧ expand "foo bar" ≠ .ok ["foo bar"] := by
  refine ⟨expand_foo_bar, ?_⟩
  rw [expand_foo_bar]
  intro h
  injection h with h1
  exact absurd h1 (by decide)

/-- C8 (amended): an expression with no operators and no parentheses
consisting of a single word `w` (its whitespace normalization is `w` up
to one leading/trailing space, `w` not an operator word) expands to
exactly `[w]`, i.e. `[expression.strip()]`; an expression of several
whitespace-separated words returns only its first word — `"foo bar"`
expands to `["foo"]`, silently dropping `"bar"`. -/
theorem C8_no_operator_single_word (s w : String)
    (hw : w ≠ "")
    (hws : ∀ c ∈ w.toList, pyIsSpace c = false)
    (hpar : ∀ c ∈ w.toList, c ≠ '(' ∧ c ≠ ')')
    (hE : w ≠ "E") (hOU : w ≠ "OU")
    (hnorm : ∃ spL spR : List Char, (spL = [] ∨ spL = [' ']) ∧ (spR = [] ∨ spR = [' ']) ∧
      (normalizeWs s).toList = spL ++ (w.toList ++ spR)) :
    expand s = .ok [w] ∧ expand "foo bar" = .ok ["foo"] := by
  obtain ⟨spL, spR, hL, hR, hn⟩ := hnorm
  exact ⟨expand_single_word s w hw hws hpar hE hOU spL spR hL hR hn, expand_foo_bar⟩

/-- Witness for C8 at the expression `" hello "` with w = `"hello"`. -/
theorem C8_no_operator_single_word_witness :
    expand " hello " = .ok ["hello"] ∧ expand "foo bar" = .ok ["foo"] :=
  C8_no_operator_single_word " hello " "hello" (by decide) (by decide) (by decide)
    (by decide) (by decide) ⟨[' '], [' '], Or.inr rfl, Or.inr rfl, by decide⟩

/-- C10: an input passing the two parenthesis validation checks (no `"()"`
substring, balanced parenthesis counts) makes `expand` return a list
without raising — the parser is total — and tokens left over after the
top-level OR-expression are silently discarded: `"x (y OU z)"` (a term
followed by a parenthesised OR-clause with no operator in between)
returns just `["x"]`, omitting the whole clause. -/
theorem C10_validated_input_returns (s : String)
    (h1 : hasEmptyParens (normalizeWs s).toList = false)
    (h2 : countChar '(' (normalizeWs s).toList = countChar ')' (normalizeWs s).toList) :
    (∃ l, expand s = .ok l) ∧ expand "x (y OU z)" = .ok ["x"] :=
  ⟨⟨_, expand_ok s h1 h2⟩, expand_discards⟩

/-- Witness for C10 at `"a) (b"` — balanced counts, no `"()"`, yet
ill-formed; `expand` still returns. -/
theorem C10_validated_input_returns_witness :
    (∃ l, expand "a) (b" = .ok l) ∧ expand "x (y OU z)" = .ok ["x"] :=
  C10_validated_input_returns "a) (b" (by decide) (by decide)

/-! ### Claims C6 and C7 — the duplicate-key aggregator -/

theorem filter_beq_eq_singleton {l : List String} (hn : l.Nodup) {k : String}
    (hk : k ∈ l) : l.filter (fun x => x == k) = [k] := by
  induction l with
  | nil => simp at hk
  | cons a l ih =>
    rw [List.filter_cons]
    rcases List.mem_cons.mp hk with rfl | hk2
    · have hnl : k ∉ l := (List.nodup_cons.mp hn).1
      rw [if_pos (by simp)]
      have hfil : l.filter (fun x => x == k) = [] := by
        apply List.filter_eq_nil_iff.mpr
        intro x hx hpx
        have hxk : x = k := eq_of_beq hpx
        exact hnl (hxk ▸ hx)
      rw [hfil]
    · have ha : ¬(a == k) = true := fun h =>
        (List.nodup_cons.mp hn).1 (eq_of_beq h ▸ hk2)
      rw [if_neg ha]
      exact ih (List.nodup_cons.mp hn).2 hk2

theorem isDupRow_of_key {rows : List Row} {r : Row} {k : Option String}
    (hlink : r.link = k) (hdup : 2 ≤ rows.countP (fun r2 => r2.link == k)) :
    isDupRow rows r = true := by
  unfold isDupRow
  rw [hlink]
  exact decide_eq_true hdup

/-- The output of `remove_duplicates` contains exactly one row for a key
shared by at least two input rows: provenance is the comma-join of the
group in row order, every other column is the group's first value. -/
theorem remove_duplicates_merges (rows : List Row) (k : String)
    (hdup : 2 ≤ rows.countP (fun r => r.link == some k)) :
    (remove_duplicates rows).filter (fun r => r.link == some k) =
      [{ link := some k,
         termoBusca := ", ".intercalate
           ((rows.filter (fun r => r.link == some k)).map (fun r => r.termoBusca)),
         extra := (((rows.filter (fun r => r.link == some k)).head?).map
           (fun r => r.extra)).getD "" }] := by
  have hPD : ∀ r ∈ rows, (r.link == some k) = true → isDupRow rows r = true :=
    fun r _ hPr => isDupRow_of_key (eq_of_beq hPr) hdup
  unfold remove_duplicates
  rw [List.filter_append]
  have hsem : (rows.filter (fun r => !isDupRow rows r)).filter
      (fun r => r.link == some k) = [] := by
    rw [List.filter_filter]
    apply List.filter_eq_nil_iff.mpr
    intro r hr hcon
    obtain ⟨h1, h2⟩ := Bool.and_eq_true_iff.mp hcon
    rw [hPD r hr h1] at h2
    simp at h2
  have hdups_filter : (rows.filter (fun r => isDupRow rows r)).filter
      (fun r => r.link == some k) = rows.filter (fun r => r.link == some k) := by
    rw [List.filter_filter]
    apply List.filter_congr
    intro r hr
    cases hPr : (r.link == some k) with
    | false => simp
    | true => simp [hPD r hr hPr]
  have hk_mem : k ∈ groupKeys (rows.filter (fun r => isDupRow rows r)) := by
    unfold groupKeys sortedDedup sortStrings
    rw [List.Perm.mem_iff (List.perm_insertionSort _ _), List.mem_dedup, List.mem_filterMap]
    have hpos : 0 < rows.countP (fun r => r.link == some k) :=
      lt_of_lt_of_le (by norm_num) hdup
    obtain ⟨r, hr, hPr⟩ := List.countP_pos_iff.mp hpos
    exact ⟨r, List.mem_filter.mpr ⟨hr, hPD r hr hPr⟩, eq_of_beq hPr⟩
  have hnodup : (groupKeys (rows.filter (fun r => isDupRow rows r))).Nodup := by
    unfold groupKeys sortedDedup sortStrings
    exact ((List.perm_insertionSort _ _).nodup_iff).mpr (List.nodup_dedup _)
  have hagr : (((groupKeys (rows.filter (fun r => isDupRow rows r)))).map
      (fun k2 => mergeGroup k2 (rows.filter (fun r => isDupRow rows r)))).filter
      (fun r => r.link == some k) =
      [mergeGroup k (rows.filter (fun r => isDupRow rows r))] := by
    rw [List.filter_map]
    have hcomp : ((fun r => r.link == some k) ∘
        fun k2 => mergeGroup k2 (rows.filter (fun r => isDupRow rows r))) =
        fun k2 => k2 == k := by
      funext k2
      simp [mergeGroup]
    rw [hcomp, filter_beq_eq_singleton hnodup hk_mem]
    rfl
  rw [hsem, hagr, List.nil_append]
  unfold mergeGroup
  rw [hdups_filter]

/-- Missing (NaN) keys are never merged: duplicated missing keys are
dropped entirely (`groupby` excludes them while `drop_duplicates` removed
them), a non-duplicated missing-key row passes through. -/
theorem remove_duplicates_missing_keys (rows : List Row) :
    (remove_duplicates rows).filter (fun r => r.link == (none : Option String)) =
      (if 2 ≤ rows.countP (fun r => r.link == (none : Option String)) then []
       else rows.filter (fun r => r.link == (none : Option String))) := by
  unfold remove_duplicates
  rw [List.filter_append]
  have hagr : (((groupKeys (rows.filter (fun r => isDupRow rows r)))).map
      (fun k2 => mergeGroup k2 (rows.filter (fun r => isDupRow rows r)))).filter
      (fun r => r.link == (none : Option String)) = [] := by
    apply List.filter_eq_nil_iff.mpr
    intro x hx
    obtain ⟨k2, hk2, rfl⟩ := List.mem_map.mp hx
    simp [mergeGroup]
  rw [hagr, List.append_nil]
  by_cases hc : 2 ≤ rows.countP (fun r => r.link == (none : Option String))
  · rw [if_pos hc, List.filter_filter]
    apply List.filter_eq_nil_iff.mpr
    intro r hr hcon
    obtain ⟨h1, h2⟩ := Bool.and_eq_true_iff.mp hcon
    rw [isDupRow_of_key (eq_of_beq h1) hc] at h2
    simp at h2
  · rw [if_neg hc, List.filter_filter]
    apply List.filter_congr
    intro r hr
    cases hPr : (r.link == (none : Option String)) with
    | false => simp
    | true =>
      have hlink : r.link = none := eq_of_beq hPr
      have hD : isDupRow rows r = false := by
        unfold isDupRow
        rw [hlink]
        exact decide_eq_false hc
      simp [hD]

/-- C6: in every input table, all rows sharing a non-empty canonical key
are merged into exactly one output row whose provenance column is the
comma-joined (`", "`), first-seen-order concatenation of the group's
provenance values (repetitions kept verbatim) and whose other columns
take the first group row's values. -/
theorem C6_shared_key_merged (rows : List Row) (k : String) (hk : k ≠ "")
    (hdup : 2 ≤ rows.countP (fun r => r.link == some k)) :
    (remove_duplicates rows).filter (fun r => r.link == some k) =
      [{ link := some k,
         termoBusca := ", ".intercalate
           ((rows.filter (fun r => r.link == some k)).map (fun r => r.termoBusca)),
         extra := (((rows.filter (fun r => r.link == some k)).head?).map
           (fun r => r.extra)).getD "" }] :=
  remove_duplicates_merges rows k hdup

/-- Witness for C6: two rows with key "u" and provenance "a" and "b"
merge into one row with provenance "a, b" and the first row's other
column. -/
theorem C6_shared_key_merged_witness :
    ("u" : String) ≠ "" ∧
    2 ≤ ([⟨some "u", "a", "x"⟩, ⟨some "u", "b", "y"⟩] : List Row).countP
      (fun r => r.link == some "u") ∧
    (remove_duplicates [⟨some "u", "a", "x"⟩, ⟨some "u", "b", "y"⟩]).filter
      (fun r => r.link == some "u") = [⟨some "u", "a, b", "x"⟩] := by
  refine ⟨by decide, by decide, ?_⟩
  exact (C6_shared_key_merged [⟨some "u", "a", "x"⟩, ⟨some "u", "b", "y"⟩] "u"
    (by decide) (by decide)).trans (by decide)

/-- C7 counterexample: two rows whose canonical key is the empty string
are merged into one row (provenance "a, b") instead of being passed
through individually. -/
theorem C7_counterexample :
    remove_duplicates [⟨some "", "a", "x"⟩, ⟨some "", "b", "y"⟩] =
      [⟨some "", "a, b", "x"⟩] := by
  decide

/-- C7 (amended): rows with a missing (NaN) key are never merged — but
when two or more rows share a missing key they are all dropped from the
output, and only a non-duplicated missing-key row passes through
unchanged; rows with an empty-string key are merged like any other
shared key (two such rows with provenance "p" and "q" merge into one
with provenance "p, q"). -/
theorem C7_missing_key_rows (rows : List Row) :
    ((remove_duplicates rows).filter (fun r => r.link == (none : Option String)) =
      (if 2 ≤ rows.countP (fun r => r.link == (none : Option String)) then []
       else rows.filter (fun r => r.link == (none : Option String)))) ∧
    remove_duplicates [⟨some "", "p", "1"⟩, ⟨some "", "q", "2"⟩] =
      [⟨some "", "p, q", "1"⟩] :=
  ⟨remove_duplicates_missing_keys rows, by decide⟩

/-! ### Claims C1 to C5 — the pagination/retry/fan-out controller -/


theorem rwrGo_sleeps_extend (fetch : Nat → FetchResult) (retries : Nat) :
    ∀ rem attempt sleeps, ∃ tail,
      (rwrGo fetch retries rem attempt sleeps).2 = sleeps ++ tail := by
  intro rem
  induction rem with
  | zero =>
    intro attempt sleeps
    exact ⟨[], by simp [rwrGo]⟩
  | succ n ih =>
    intro attempt sleeps
    rw [rwrGo]
    cases hf : fetch attempt with
    | exception m => exact ⟨[], by simp⟩
    | resp r =>
      dsimp only
      by_cases h1 : r.status < 400 ∨ (400 ≤ r.status ∧ r.status < 500 ∧ r.status ≠ 429)
      · rw [if_pos h1]
        exact ⟨[], by simp⟩
      rw [if_neg h1]
      by_cases h2 : r.status = 429
      · rw [if_pos h2]
        by_cases h3 : attempt < retries - 1
        · rw [if_pos h3]
          obtain ⟨tail, ht⟩ := ih (attempt + 1) (sleeps ++ [wait429 attempt r.retryAfterHeader])
          exact ⟨wait429 attempt r.retryAfterHeader :: tail, by rw [ht, List.append_assoc]; rfl⟩
        · rw [if_neg h3]
          exact ⟨[], by simp⟩
      rw [if_neg h2]
      by_cases h4 : 500 ≤ r.status
      · rw [if_pos h4]
        by_cases h3 : attempt < retries - 1
        · rw [if_pos h3]
          obtain ⟨tail, ht⟩ := ih (attempt + 1) (sleeps ++ [(2 : Int) ^ attempt])
          exact ⟨(2 : Int) ^ attempt :: tail, by rw [ht, List.append_assoc]; rfl⟩
        · rw [if_neg h3]
          exact ⟨[], by simp⟩
      rw [if_neg h4]
      exact ih (attempt + 1) sleeps

theorem map_range_shift (F : Nat → Int) (a m : Nat) :
    F a :: (List.range m).map (fun i => F (a + 1 + i)) =
      (List.range (m + 1)).map (fun i => F (a + i)) := by
  rw [List.range_succ_eq_map, List.map_cons, List.map_map]
  congr 1
  apply List.map_congr_left
  intro i hi
  show F (a + 1 + i) = F (a + (i + 1))
  congr 1
  omega

theorem rwrGo_all429 (fetch : Nat → FetchResult) (g : Nat → Resp) (retries : Nat) :
    ∀ rem attempt sleeps,
      rem + attempt = retries → 1 ≤ rem →
      (∀ a, attempt ≤ a → a < retries → fetch a = .resp (g a) ∧ (g a).status = 429) →
      rwrGo fetch retries rem attempt sleeps =
        (terminal429 (g (retries - 1)).retryAfterHeader,
         sleeps ++ (List.range (rem - 1)).map
           (fun i => wait429 (attempt + i) (g (attempt + i)).retryAfterHeader)) := by
  intro rem
  induction rem with
  | zero =>
    intro attempt sleeps hsum hge
    omega
  | succ n ih =>
    intro attempt sleeps hsum hge hall
    obtain ⟨hf, hst⟩ := hall attempt (le_refl _) (by omega)
    rw [rwrGo, hf]
    dsimp only
    rw [hst]
    rw [if_neg (by decide), if_pos rfl]
    cases n with
    | zero =>
      rw [if_neg (by omega)]
      have hat : attempt = retries - 1 := by omega
      rw [hat]
      simp
    | succ m =>
      rw [if_pos (by omega)]
      rw [ih (attempt + 1) (sleeps ++ [wait429 attempt (g attempt).retryAfterHeader])
        (by omega) (by omega) (fun a ha hb => hall a (by omega) hb)]
      congr 1
      rw [List.append_assoc]
      congr 1
      have hm1 : m + 1 - 1 = m := by omega
      have hm2 : m + 1 + 1 - 1 = m + 1 := by omega
      rw [hm1, hm2, List.singleton_append]
      exact map_range_shift (fun j => wait429 j (g j).retryAfterHeader) attempt m

/-- C5: for a 429 outcome under `_request_with_retry` with budget 3 and
`Retry-After: 30`, the wait before the second attempt is at least 30
seconds (the hint overrides the exponential default); with no
`Retry-After` hint at all, the wait before the Nth re-attempt is exactly
`2^(N-1)` seconds (the sleep list is `[2^0, ..., 2^(retries-2)]`); and
when attempts are exhausted the terminal failure is a `RateLimitError`
carrying the last response's parsed `Retry-After` (or none). -/
theorem C5_retry_policy :
    (∀ (fetch : Nat → FetchResult) (r0 : Resp),
      fetch 0 = .resp r0 → r0.status = 429 → r0.retryAfterHeader = some "30" →
      ∃ w, (requestWithRetry fetch 3).2.head? = some w ∧ 30 ≤ w) ∧
    (∀ (fetch : Nat → FetchResult) (g : Nat → Resp) (retries : Nat), 1 ≤ retries →
      (∀ a, a < retries → fetch a = .resp (g a) ∧ (g a).status = 429 ∧
        (g a).retryAfterHeader = none) →
      requestWithRetry fetch retries =
        (.error (.rateLimitError none),
         (List.range (retries - 1)).map (fun a => (2 : Int) ^ a))) ∧
    (∀ (fetch : Nat → FetchResult) (g : Nat → Resp) (retries : Nat) (s : String) (n : Int),
      1 ≤ retries →
      (∀ a, a < retries → fetch a = .resp (g a) ∧ (g a).status = 429) →
      (g (retries - 1)).retryAfterHeader = some s → s ≠ "" → pyInt? s = some n →
      (requestWithRetry fetch retries).1 = .error (.rateLimitError (some n))) := by
  refine ⟨?_, ?_, ?_⟩
  · intro fetch r0 hf hst hra
    unfold requestWithRetry
    rw [rwrGo, hf]
    dsimp only
    rw [hst, hra]
    rw [if_neg (by decide), if_pos rfl, if_pos (by decide)]
    obtain ⟨tail, ht⟩ := rwrGo_sleeps_extend fetch 3 2 1
      ([] ++ [wait429 0 (some "30")])
    rw [ht]
    refine ⟨30, ?_, by omega⟩
    have hw : wait429 0 (some "30") = 30 := by decide
    rw [hw]
    rfl
  · intro fetch g retries hret hall
    unfold requestWithRetry
    rw [rwrGo_all429 fetch g retries retries 0 [] (by omega) (by omega)
      (fun a ha hb => ⟨(hall a hb).1, (hall a hb).2.1⟩)]
    have hlast : (g (retries - 1)).retryAfterHeader = none :=
      (hall (retries - 1) (by omega)).2.2
    rw [hlast]
    congr 1
    simp only [List.nil_append]
    apply List.map_congr_left
    intro i hi
    have hin : i < retries - 1 := List.mem_range.mp hi
    have hnone : (g (0 + i)).retryAfterHeader = none :=
      (hall (0 + i) (by omega)).2.2
    rw [hnone]
    show wait429 (0 + i) none = 2 ^ i
    simp [wait429]
  · intro fetch g retries s n hret hall hlast hs hparse
    unfold requestWithRetry
    rw [rwrGo_all429 fetch g retries retries 0 [] (by omega) (by omega)
      (fun a ha hb => hall a hb)]
    dsimp only
    rw [hlast]
    unfold terminal429
    dsimp only
    rw [if_pos hs, hparse]

/-- Witness for C5 at concrete all-429 fetch functions with budget 3. -/
theorem C5_retry_policy_witness :
    (∃ w, (requestWithRetry (fun _ => .resp ⟨429, some "30", "", none⟩) 3).2.head? =
      some w ∧ 30 ≤ w) ∧
    requestWithRetry (fun _ => .resp ⟨429, none, "", none⟩) 3 =
      (.error (.rateLimitError none), (List.range 2).map (fun a => (2 : Int) ^ a)) ∧
    (requestWithRetry (fun _ => .resp ⟨429, some "30", "", none⟩) 3).1 =
      .error (.rateLimitError (some 30)) := by
  refine ⟨?_, ?_, ?_⟩
  · exact C5_retry_policy.1 (fun _ => .resp ⟨429, some "30", "", none⟩)
      ⟨429, some "30", "", none⟩ rfl rfl rfl
  · exact C5_retry_policy.2.1 (fun _ => .resp ⟨429, none, "", none⟩)
      (fun _ => ⟨429, none, "", none⟩) 3 (by omega) (fun a ha => ⟨rfl, rfl, rfl⟩)
  · exact C5_retry_policy.2.2 (fun _ => .resp ⟨429, some "30", "", none⟩)
      (fun _ => ⟨429, some "30", "", none⟩) 3 "30" 30 (by omega)
      (fun a ha => ⟨rfl, rfl⟩) rfl (by decide) (by decide)



/-- C1 counterexample: a rate-limited (429) response in the fetch loop is
NOT logged-and-skipped — its body is persisted like a success (the loop
performs no retries and only skips on `status >= 500` or a raised
exception). -/
theorem C1_counterexample :
    fetchLoop [1] (fun _ => .resp ⟨429, some "30", "rate limited body", none⟩) =
      [(1, "rate limited body")] ∧
    fetchLoop [1] (fun _ => .resp ⟨429, some "30", "rate limited body", none⟩) ≠ [] := by
  constructor
  · rfl
  · decide

/-- C1 (amended): in the `_download_data` fetch loop — which fetches each
page exactly once, without retry — a raised exception while
fetching/writing is logged and the page skipped, a server-error (5xx)
response is logged and the page skipped, and the loop proceeds to the
next page; a 429 response is not skipped but persisted (see the
counterexample).  No page's outcome aborts the session: for every
effective range the harvest completes and returns the storage
directory. -/
theorem C1_failures_skipped :
    (∀ (fetch : Int → FetchResult) (p : Int) (rest : List Int) (m : String),
      fetch p = .exception m → fetchLoop (p :: rest) fetch = fetchLoop rest fetch) ∧
    (∀ (fetch : Int → FetchResult) (p : Int) (rest : List Int) (r : Resp),
      fetch p = .resp r → 500 ≤ r.status →
      fetchLoop (p :: rest) fetch = fetchLoop rest fetch) ∧
    (∀ (dir : String) (pv : PyVal) (nPags : Option Int) (fetch : Int → FetchResult),
      pv = .pynone ∨ (∃ pr, pv = .vrange pr) →
      ∃ files, downloadData dir pv nPags fetch = .ok (dir, files)) := by
  refine ⟨?_, ?_, ?_⟩
  · intro fetch p rest m hf
    rw [fetchLoop, hf]
  · intro fetch p rest r hf h500
    rw [fetchLoop, hf]
    dsimp only
    rw [if_pos h500]
  · intro dir pv nPags fetch hpv
    rcases hpv with rfl | ⟨pr, rfl⟩
    · exact ⟨_, rfl⟩
    · exact ⟨_, rfl⟩

/-- Witness for C1 at concrete failing fetches. -/
theorem C1_failures_skipped_witness :
    fetchLoop [1, 2] (fun _ => .exception "timeout") =
      fetchLoop [2] (fun _ => .exception "timeout") ∧
    fetchLoop [1, 2] (fun _ => .resp ⟨503, none, "oops", none⟩) =
      fetchLoop [2] (fun _ => .resp ⟨503, none, "oops", none⟩) ∧
    (∃ files, downloadData "dir" (.vrange ⟨1, 1000, 1⟩) (some 5)
      (fun _ => .exception "timeout") = .ok ("dir", files)) := by
  refine ⟨?_, ?_, ?_⟩
  · exact C1_failures_skipped.1 (fun _ => .exception "timeout") 1 [2] "timeout" rfl
  · exact C1_failures_skipped.2.1 (fun _ => .resp ⟨503, none, "oops", none⟩) 1 [2]
      ⟨503, none, "oops", none⟩ rfl (by decide)
  · exact C1_failures_skipped.2.2 "dir" (.vrange ⟨1, 1000, 1⟩) (some 5)
      (fun _ => .exception "timeout") (Or.inr ⟨⟨1, 1000, 1⟩, rfl⟩)

/-- C2 counterexample: a transport exception (e.g. `ConnectionError`)
raised during the page-count probe propagates to the caller instead of
degrading the harvest to zero pages. -/
theorem C2_counterexample :
    getNPags (fun _ => .exception "requests.ConnectionError") 3 (fun _ => .ok (some 5)) =
      .error (.exception "requests.ConnectionError") ∧
    getNPags (fun _ => .exception "requests.ConnectionError") 3 (fun _ => .ok (some 5)) ≠
      .ok 0 := by
  constructor
  · rfl
  · intro h
    have h2 : (Except.error (PyErr.exception "requests.ConnectionError") :
      Except PyErr Int) = .ok 0 := h
    exact Except.noConfusion h2

/-- C2 (amended): during the one-time page-count probe, exactly
`RateLimitError` and `APIError` (raised by the retried request once its
budget is exhausted) degrade the harvest to zero pages, and a None count
from the page-count extractor is likewise treated as zero pages; every
other error — transport exceptions from the request, and anything the
extractor raises — propagates to the caller. -/
theorem C2_probe_degradation :
    (∀ (fetch : Nat → FetchResult) (maxR : Nat) (fN : Resp → Except PyErr (Option Int))
      (ra : Option Int), (requestWithRetry fetch maxR).1 = .error (.rateLimitError ra) →
      getNPags fetch maxR fN = .ok 0) ∧
    (∀ (fetch : Nat → FetchResult) (maxR : Nat) (fN : Resp → Except PyErr (Option Int))
      (st : Nat) (t : String), (requestWithRetry fetch maxR).1 = .error (.apiError st t) →
      getNPags fetch maxR fN = .ok 0) ∧
    (∀ (fetch : Nat → FetchResult) (maxR : Nat) (fN : Resp → Except PyErr (Option Int))
      (r0 : Resp), (requestWithRetry fetch maxR).1 = .ok r0 → fN r0 = .ok none →
      getNPags fetch maxR fN = .ok 0) ∧
    (∀ (fetch : Nat → FetchResult) (maxR : Nat) (fN : Resp → Except PyErr (Option Int))
      (m : String), (requestWithRetry fetch maxR).1 = .error (.exception m) →
      getNPags fetch maxR fN = .error (.exception m)) ∧
    (∀ (fetch : Nat → FetchResult) (maxR : Nat) (fN : Resp → Except PyErr (Option Int))
      (r0 : Resp) (e : PyErr), (requestWithRetry fetch maxR).1 = .ok r0 → fN r0 = .error e →
      getNPags fetch maxR fN = .error e) := by
  refine ⟨?_, ?_, ?_, ?_, ?_⟩
  · intro fetch maxR fN ra h
    unfold getNPags
    rw [h]
  · intro fetch maxR fN st t h
    unfold getNPags
    rw [h]
  · intro fetch maxR fN r0 h hN
    unfold getNPags
    rw [h]
    dsimp only
    rw [hN]
  · intro fetch maxR fN m h
    unfold getNPags
    rw [h]
  · intro fetch maxR fN r0 e h hN
    unfold getNPags
    rw [h]
    dsimp only
    rw [hN]

/-- Witness for C2 at concrete probe outcomes with budget 1. -/
theorem C2_probe_degradation_witness :
    getNPags (fun _ => .resp ⟨429, none, "", none⟩) 1 (fun _ => .ok (some 7)) = .ok 0 ∧
    getNPags (fun _ => .resp ⟨500, none, "oops", none⟩) 1 (fun _ => .ok (some 7)) = .ok 0 ∧
    getNPags (fun _ => .resp ⟨200, none, "body", none⟩) 1 (fun _ => .ok none) = .ok 0 ∧
    getNPags (fun _ => .exception "timeout") 1 (fun _ => .ok (some 7)) =
      .error (.exception "timeout") ∧
    getNPags (fun _ => .resp ⟨200, none, "body", none⟩) 1
      (fun _ => .error (.exception "parse error")) = .error (.exception "parse error") := by
  refine ⟨?_, ?_, ?_, ?_, ?_⟩
  · exact C2_probe_degradation.1 (fun _ => .resp ⟨429, none, "", none⟩) 1
      (fun _ => .ok (some 7)) none rfl
  · exact C2_probe_degradation.2.1 (fun _ => .resp ⟨500, none, "oops", none⟩) 1
      (fun _ => .ok (some 7)) 500 "oops" rfl
  · exact C2_probe_degradation.2.2.1 (fun _ => .resp ⟨200, none, "body", none⟩) 1
      (fun _ => .ok none) ⟨200, none, "body", none⟩ rfl rfl
  · exact C2_probe_degradation.2.2.2.1 (fun _ => .exception "timeout") 1
      (fun _ => .ok (some 7)) "timeout" rfl
  · exact C2_probe_degradation.2.2.2.2 (fun _ => .resp ⟨200, none, "body", none⟩) 1
      (fun _ => .error (.exception "parse error")) ⟨200, none, "body", none⟩
      (.exception "parse error") rfl rfl

/-- C3 counterexample: a non-range, non-None requested `paginas` value
(the integer 5) makes `_set_paginas` raise `AttributeError` at
`paginas.start` — it does not fall back to an empty range.  (The
`hasattr(paginas, '__iter__')` guard sits after `_set_paginas`, whose
results are always ranges, so it never fires.) -/
theorem C3_counterexample :
    setPaginas (.int 5) (some 3) =
      .error (.attributeError "object has no attribute start") := rfl

/-- C3 (amended): the effective range's upper bound never exceeds
`total_pages + 1` (for the default full range and for any requested
subrange, whose stop is clamped with `min`); the requested subrange
`[1,1000)` with `total_pages = 5` yields exactly `range(1, 6)`, i.e. the
5 pages `[1,2,3,4,5]`; and a requested range that collapses to empty
iterates zero pages rather than erroring.  A non-range `paginas` value,
however, raises `AttributeError` (see the counterexample). -/
theorem C3_range_clamped :
    (∀ (pv : PyVal) (n : Option Int) (q : PyRange),
      setPaginas pv n = .ok q → q.stop ≤ n.getD 0 + 1) ∧
    (setPaginas (.vrange ⟨1, 1000, 1⟩) (some 5) = .ok ⟨1, 6, 1⟩ ∧
      PyRange.toList ⟨1, 6, 1⟩ = [1, 2, 3, 4, 5]) ∧
    (∀ (p : PyRange) (n : Option Int) (q : PyRange),
      setPaginas (.vrange p) n = .ok q → q.stop ≤ q.start → 0 < q.step →
      PyRange.toList q = []) := by
  refine ⟨?_, ⟨rfl, ?_⟩, ?_⟩
  · intro pv n q h
    cases pv with
    | pynone =>
      simp only [setPaginas, Except.ok.injEq] at h
      rw [← h]
    | vrange p =>
      simp only [setPaginas, Except.ok.injEq] at h
      rw [← h]
      exact min_le_right _ _
    | str s => simp [setPaginas] at h
    | int i => simp [setPaginas] at h
    | vlist vs => simp [setPaginas] at h
    | vtuple vs => simp [setPaginas] at h
  · unfold PyRange.toList
    rw [show PyRange.size ⟨1, 6, 1⟩ = 5 from rfl]
    simp [List.range_succ]
  · intro p n q h hstop hstep
    have hsize : q.size = 0 := by
      unfold PyRange.size
      rw [if_pos hstep]
      apply Nat.div_eq_of_lt
      omega
    unfold PyRange.toList
    rw [hsize]
    rfl

/-- Witness for C3's clamping and empty-collapse parts. -/
theorem C3_range_clamped_witness :
    PyRange.stop ⟨1, 4, 1⟩ ≤ (some (3 : Int)).getD 0 + 1 ∧
    PyRange.toList ⟨7, 4, 1⟩ = [] := by
  constructor
  · exact C3_range_clamped.1 .pynone (some 3) ⟨1, 4, 1⟩ rfl
  · exact C3_range_clamped.2.2 ⟨7, 9, 1⟩ (some 3) ⟨7, 4, 1⟩ rfl (by decide) (by decide)

/-- C4 counterexample: with two list-valued parameters, `raspar` raises
the builtin `ValueError` — not the library's `ValidationError` as the
claim states. -/
theorem C4_counterexample :
    raspar (fun kw => .ok kw) (fun _ => [])
      [("a", .vlist [.str "x"]), ("b", .vlist [.str "y"])] =
      .error (.valueError
        "raspar() só suporta lista de valores de busca para um parâmetro") ∧
    isValidationError (raspar (fun kw => .ok kw) (fun _ => [])
      [("a", .vlist [.str "x"]), ("b", .vlist [.str "y"])]) = false := by
  constructor
  · rfl
  · rfl

/-- C4 (amended): whenever parameter validation succeeds and more than
one parameter (excluding the reserved 'paginas') holds a list/tuple
value, `raspar` raises `ValueError` — and it does so for EVERY
`downloadParse` function, i.e. before any network activity. -/
theorem C4_two_list_params (validar : Kwargs → Except PyErr Kwargs)
    (downloadParse : Kwargs → List String) (kwargs kw : Kwargs)
    (hv : validar kwargs = .ok kw)
    (h2 : 2 ≤ (listKeys kw).length) :
    raspar validar downloadParse kwargs =
      .error (.valueError
        "raspar() só suporta lista de valores de busca para um parâmetro") := by
  unfold raspar
  rw [hv]
  dsimp only
  have hne : listKeys kw ≠ [] := by
    intro h0
    rw [h0] at h2
    simp at h2
  rw [if_pos hne, if_pos (by omega)]

/-- Witness for C4 at a concrete two-list-parameter request. -/
theorem C4_two_list_params_witness :
    raspar (fun kw => .ok kw) (fun _ => [])
      [("ano", .vlist [.str "2023"]), ("tema", .vtuple [.str "saude"])] =
      .error (.valueError
        "raspar() só suporta lista de valores de busca para um parâmetro") :=
  C4_two_list_params (fun kw => .ok kw) (fun _ => [])
    [("ano", .vlist [.str "2023"]), ("tema", .vtuple [.str "saude"])]
    [("ano", .vlist [.str "2023"]), ("tema", .vtuple [.str "saude"])]
    rfl (by decide)

end Raspe
